import Mathlib

/-!
# Verification of `puml-req` (src/main.rs)

A shallow embedding of the PlantUML export tool `puml-req` and proofs about
its specification.  The program reads PlantUML text files, deflate-encodes
their contents into a URL token, issues one HTTP GET per file against a
rendering server, and writes the response bytes next to the input file.

Conventions of the embedding:
* OS strings and file contents are byte lists (`List Nat`, each entry a byte);
  `ascii` converts a Lean string literal into its byte list (used only for
  ASCII names appearing in examples).
* Paths are Rust-style normalized component lists (`Component`), with the
  `std::path` operations (`file_stem`, `parent`, `with_extension`, `push`)
  translated from their documented byte-level semantics.
* Fallible Rust code returns `Except`.
* External effects (the file system and the HTTP client) are passed
  explicitly: the file system is an association list of path/contents pairs
  and the HTTP transport is a function from a URL to a response.
-/

namespace PumlReq

/-- Bytes of an ASCII string literal (UTF-8 bytes coincide with code points). -/
def ascii (s : String) : List Nat := s.data.map Char.toNat

/-- All entries of a byte list are actual bytes. -/
def bytesOk (l : List Nat) : Prop := ∀ x ∈ l, x < 256

instance (l : List Nat) : Decidable (bytesOk l) := by
  unfold bytesOk; infer_instance

/-! ## The output format enum (`enum Type` in src/main.rs) -/

/-- The `Type` enum of src/main.rs: output format selected by `--type`. -/
inductive Type_ : Type
  | Ascii
  | Png
  | Svg
deriving DecidableEq, Repr

/-- The `Display` impl for `Type` (src/main.rs lines 21-33): the lowercase
string used both as URL segment and as output file extension. -/
def typeToStr : Type_ → String
  | .Ascii => "txt"
  | .Svg => "svg"
  | .Png => "png"

/-- ASCII-range model of Rust's `str::to_lowercase` as used by `FromStr for
Type` (src/main.rs line 38); all candidate match arms are ASCII keywords, so
only the ASCII letter range is relevant. -/
def toLowerAscii (s : String) : String :=
  ⟨s.data.map (fun c => if 'A' ≤ c ∧ c ≤ 'Z' then Char.ofNat (c.toNat + 32) else c)⟩

/-- The `FromStr` impl for `Type` (src/main.rs lines 35-45): lowercase the
input and match against the known format names. -/
def typeFromStr (s : String) : Except String Type_ :=
  let l := toLowerAscii s
  if l = "ascii" ∨ l = "txt" then .ok .Ascii
  else if l = "svg" then .ok .Svg
  else if l = "png" then .ok .Png
  else .error ("Unknown Type " ++ s)

/-! ## Paths (Rust `std::path` on Unix, component level) -/

/-- One component of a Rust `Path` (Unix: no prefixes). -/
inductive Component : Type
  | rootDir
  | curDir
  | parentDir
  | normal (name : List Nat)
deriving DecidableEq, Repr

/-- A path as its normalized component list (what `Path::components` yields). -/
abbrev PathM := List Component

/-- `Path::file_name`: the final component when it is a normal component. -/
def fileName (p : PathM) : Option (List Nat) :=
  match p.getLast? with
  | some (.normal n) => some n
  | _ => none

/-- Index of the last `'.'` (byte 46) in a byte list, if any. -/
def rposDot : List Nat → Option Nat
  | [] => none
  | b :: rest =>
    match rposDot rest with
    | some i => some (i + 1)
    | none => if b = 46 then some 0 else none

/-- Rust's private `split_file_at_dot`: split a file name into stem and
extension at the last dot, ignoring a dot in leading position (hidden files)
and special-casing `..`. -/
def splitFileAtDot (n : List Nat) : List Nat × Option (List Nat) :=
  if n = [46, 46] then (n, none)
  else
    match rposDot (n.drop 1) with
    | none => (n, none)
    | some i => (n.take (i + 1), some (n.drop (i + 2)))

/-- `Path::file_stem`. -/
def fileStem (p : PathM) : Option (List Nat) :=
  (fileName p).map (fun n => (splitFileAtDot n).1)

/-- `Path::extension`. -/
def extension (p : PathM) : Option (List Nat) :=
  (fileName p).bind (fun n => (splitFileAtDot n).2)

/-- `Path::parent`: drop the last component; `None` for the empty path and
for the root. -/
def parent (p : PathM) : Option PathM :=
  match p with
  | [] => none
  | [.rootDir] => none
  | _ => some p.dropLast

/-- `PathBuf::from_str` on a single file-name-like string (no separators
occur in a stem): recognize `.` and `..`, otherwise one normal component. -/
def pathFromStr (s : List Nat) : PathM :=
  if s = [] then []
  else if s = [46] then [.curDir]
  else if s = [46, 46] then [.parentDir]
  else [.normal s]

/-- `Path::with_extension` / `PathBuf::set_extension`: if the path has a file
name, replace that file name's extension (the part after its last non-leading
dot) with `ext`; otherwise return the path unchanged. -/
def withExtension (p : PathM) (ext : List Nat) : PathM :=
  match fileName p with
  | none => p
  | some n =>
    let stem := (splitFileAtDot n).1
    let newName := if ext = [] then stem else stem ++ 46 :: ext
    p.dropLast ++ [.normal newName]

/-- `PathBuf::push` (Unix): an absolute path replaces, otherwise append. -/
def push (p q : PathM) : PathM :=
  if q.head? = some .rootDir then q else p ++ q

/-- Failure cases of `make_output_path` (the `context(...)` messages in
src/main.rs lines 59-68); the spec calls these `PathError`. -/
inductive PathError : Type
  | noFileStem    -- "no file stem for input path"
  | notUtf8       -- "Cannot convert to str"
  | noParent      -- "no parent found"
deriving DecidableEq, Repr

/-- Validity of a byte list as UTF-8 (Rust `OsStr::to_str` succeeds iff the
name is valid UTF-8; `read_to_string` likewise requires valid UTF-8). -/
def utf8Valid : List Nat → Bool
  | [] => true
  | b :: rest =>
    if b ≤ 127 then utf8Valid rest
    else if 194 ≤ b ∧ b ≤ 223 then
      match rest with
      | c1 :: r => (128 ≤ c1 && c1 ≤ 191) && utf8Valid r
      | _ => false
    else if b = 224 then
      match rest with
      | c1 :: c2 :: r => (160 ≤ c1 && c1 ≤ 191) && (128 ≤ c2 && c2 ≤ 191) && utf8Valid r
      | _ => false
    else if 225 ≤ b ∧ b ≤ 236 then
      match rest with
      | c1 :: c2 :: r => (128 ≤ c1 && c1 ≤ 191) && (128 ≤ c2 && c2 ≤ 191) && utf8Valid r
      | _ => false
    else if b = 237 then
      match rest with
      | c1 :: c2 :: r => (128 ≤ c1 && c1 ≤ 159) && (128 ≤ c2 && c2 ≤ 191) && utf8Valid r
      | _ => false
    else if 238 ≤ b ∧ b ≤ 239 then
      match rest with
      | c1 :: c2 :: r => (128 ≤ c1 && c1 ≤ 191) && (128 ≤ c2 && c2 ≤ 191) && utf8Valid r
      | _ => false
    else if b = 240 then
      match rest with
      | c1 :: c2 :: c3 :: r =>
        (144 ≤ c1 && c1 ≤ 191) && (128 ≤ c2 && c2 ≤ 191) && (128 ≤ c3 && c3 ≤ 191) && utf8Valid r
      | _ => false
    else if 241 ≤ b ∧ b ≤ 243 then
      match rest with
      | c1 :: c2 :: c3 :: r =>
        (128 ≤ c1 && c1 ≤ 191) && (128 ≤ c2 && c2 ≤ 191) && (128 ≤ c3 && c3 ≤ 191) && utf8Valid r
      | _ => false
    else if b = 244 then
      match rest with
      | c1 :: c2 :: c3 :: r =>
        (128 ≤ c1 && c1 ≤ 143) && (128 ≤ c2 && c2 ≤ 191) && (128 ≤ c3 && c3 ≤ 191) && utf8Valid r
      | _ => false
    else false

/-- `make_output_path` (src/main.rs lines 59-68): take the input's file stem
(failing if absent or not UTF-8), then push `stem.with_extension(type_)` onto
the input's parent. -/
def make_output_path (input : PathM) (type_ : Type_) : Except PathError PathM :=
  match fileStem input with
  | none => .error .noFileStem
  | some stem =>
    if utf8Valid stem then
      match parent input with
      | none => .error .noParent
      | some out_path =>
        .ok (push out_path (withExtension (pathFromStr stem) (ascii (typeToStr type_))))
    else .error .notUtf8

/-! ## The Encoder (`encode_plantuml_deflate` from the `plantuml_encoding`
crate, called at src/main.rs line 87)

The encoder itself lives in the external `plantuml_encoding` crate, not under
`src/`; the definitions below are therefore modelled from the spec (section
4.1): a standard deflate-family compression of the text bytes followed by an
encoding with PlantUML's fixed custom base64-like alphabet
(`0-9 A-Z a-z - _`), 3 input bytes to 4 output characters, incomplete final
groups zero-padded. -/

/-- PlantUML's `encode_6_bit`: map a 6-bit value to its character code in the
custom alphabet `0-9 A-Z a-z - _` (a stray value maps to `?`, as in the
crate). -/
def encode6bit (b : Nat) : Nat :=
  if b < 10 then 48 + b
  else if b < 36 then 65 + (b - 10)
  else if b < 62 then 97 + (b - 36)
  else if b = 62 then 45
  else if b = 63 then 95
  else 63

/-- PlantUML's `encode_3_bytes`: three bytes become four alphabet characters
carrying the four 6-bit groups. -/
def encode3bytes (a b c : Nat) : List Nat :=
  [ encode6bit (a / 4),
    encode6bit (a % 4 * 16 + b / 16),
    encode6bit (b % 16 * 4 + c / 64),
    encode6bit (c % 64) ]

/-- PlantUML's base64-like pass over the compressed bytes: chunks of three,
the final chunk zero-padded. -/
def encodeB64 : List Nat → List Nat
  | [] => []
  | [a] => encode3bytes a 0 0
  | [a, b] => encode3bytes a b 0
  | a :: b :: c :: rest => encode3bytes a b c ++ encodeB64 rest

/-- Modelled from the spec: inverse of the custom alphabet (section 8,
"using the inverse of the custom alphabet"): character code back to its
6-bit value. -/
def decode6bit (c : Nat) : Option Nat :=
  if 48 ≤ c ∧ c ≤ 57 then some (c - 48)
  else if 65 ≤ c ∧ c ≤ 90 then some (c - 65 + 10)
  else if 97 ≤ c ∧ c ≤ 122 then some (c - 97 + 36)
  else if c = 45 then some 62
  else if c = 95 then some 63
  else none

/-- Modelled from the spec: inverse custom-alphabet decoding, four characters
back to three bytes. -/
def decodeB64 : List Nat → Option (List Nat)
  | [] => some []
  | c1 :: c2 :: c3 :: c4 :: rest => do
    let s1 ← decode6bit c1
    let s2 ← decode6bit c2
    let s3 ← decode6bit c3
    let s4 ← decode6bit c4
    let tail ← decodeB64 rest
    pure ((s1 * 4 + s2 / 16) :: (s2 % 16 * 16 + s3 / 4) :: (s3 % 4 * 64 + s4) :: tail)
  | _ => none

/-- Zero-pad a byte list to a multiple of three (the information the
grouping of `encodeB64` retains about a trailing partial group). -/
def padTo3 (l : List Nat) : List Nat :=
  l ++ List.replicate ((3 - l.length % 3) % 3) 0

/-- Modelled from the spec: the deflate-family compression applied by the
external crate to the text bytes (spec section 4.1: "apply a standard
deflate-family compression to the UTF-8 bytes of the text").  Modelled as a
conforming raw-deflate compressor emitting stored (uncompressed) blocks:
each block is a header byte (BFINAL flag, BTYPE = 00), `LEN` little-endian,
`NLEN` its ones-complement, then `LEN` literal bytes. -/
def deflateStored (bs : List Nat) : List Nat :=
  if h : bs.length ≤ 65535 then
    1 :: bs.length % 256 :: bs.length / 256 ::
      (65535 - bs.length) % 256 :: (65535 - bs.length) / 256 :: bs
  else
    0 :: 255 :: 255 :: 0 :: 0 ::
      (bs.take 65535 ++ deflateStored (bs.drop 65535))
termination_by bs.length
decreasing_by simp_all; omega

/-- Modelled from the spec: the matching decompression (raw-deflate inflate
restricted to stored blocks).  Consumes blocks until the final one; bytes
after the final block are ignored, as a deflate stream is self-terminating. -/
def inflateGo (fuel : Nat) (l : List Nat) : Option (List Nat) :=
  match l with
  | hdr :: l0 :: l1 :: n0 :: n1 :: rest =>
    let len := l0 + 256 * l1
    let nlen := n0 + 256 * n1
    if hdr / 2 % 4 = 0 ∧ len + nlen = 65535 ∧ len ≤ rest.length then
      if hdr % 2 = 1 then some (rest.take len)
      else
        match fuel with
        | 0 => none
        | f + 1 => (inflateGo f (rest.drop len)).map (fun t => rest.take len ++ t)
    else none
  | _ => none

/-- `encode_plantuml_deflate`: compress the text bytes, then apply the custom
alphabet.  The result is the list of character codes of the URL token. -/
def encode_plantuml_deflate (text : List Nat) : List Nat :=
  encodeB64 (deflateStored text)

/-- Modelled from the spec: the decoder for the Encoder's output — inverse
alphabet, then the matching decompression. -/
def decode_plantuml_deflate (token : List Nat) : Option (List Nat) :=
  match decodeB64 token with
  | some z => inflateGo z.length z
  | none => none

/-- Render a token (list of character codes) as the string spliced into the
request URL. -/
def tokenStr (l : List Nat) : String := ⟨l.map Char.ofNat⟩

/-! ## HTTP client factory (`make_client`, src/main.rs lines 72-80) -/

/-- Strip everything up to and including the first `://`, if present. -/
def schemeSplit : List Char → Option (List Char)
  | [] => none
  | ':' :: '/' :: '/' :: rest => some rest
  | _ :: rest => schemeSplit rest

/-- Modelled from the spec: the proxy-URL validation performed by the HTTP
client library's `Proxy::http` (external `reqwest` crate, not under `src/`).
A proxy URL is well formed when it has a nonempty host part: a string with a
`://` separator must have something after it, and a string without one is
scheme-defaulted and used whole as the host, so in particular the empty
string is malformed. -/
def validProxyUrl (s : String) : Bool :=
  match schemeSplit s.data with
  | some host => !host.isEmpty
  | none => !s.data.isEmpty

/-- The configuration error of `make_client` (`Proxy::http(proxy)?`); the
spec calls this `ClientConfigError`. -/
inductive ClientError : Type
  | proxyInvalid
deriving DecidableEq, Repr

/-- The constructed HTTP client: its only configuration is the optional
proxy.  `proxy = none` means requests are issued directly. -/
structure Client : Type where
  proxy : Option String
deriving DecidableEq, Repr

/-- `make_client` (src/main.rs lines 72-80): if the `http_proxy` environment
variable is set (`env = some proxy`, including the empty value), build the
client with that proxy, failing when the URL is malformed; otherwise build a
direct client. -/
def make_client (env : Option String) : Except ClientError Client :=
  match env with
  | some proxy =>
    if validProxyUrl proxy then .ok ⟨some proxy⟩ else .error .proxyInvalid
  | none => .ok ⟨none⟩

/-! ## The per-file export pipeline (`export`, src/main.rs lines 82-100) -/

/-- The file system as an association list from paths to byte contents. -/
abbrev FS := List (PathM × List Nat)

/-- Contents of a file, if it exists. -/
def fsGet : FS → PathM → Option (List Nat)
  | [], _ => none
  | (q, v) :: rest, p => if q = p then some v else fsGet rest p

/-- Write a file: truncate (replace contents) when it exists, create it
otherwise — the `write(true).create(true).truncate(true)` open options of
src/main.rs lines 92-96. -/
def fsSet : FS → PathM → List Nat → FS
  | [], p, v => [(p, v)]
  | (q, w) :: rest, p, v => if q = p then (q, v) :: rest else (q, w) :: fsSet rest p v

/-- Per-file failure cases of `export` (spec section 7), in pipeline order. -/
inductive ExportError : Type
  | ioRead            -- open/read failed (file missing)
  | notUtf8Content    -- `read_to_string` on non-UTF-8 bytes
  | network (msg : String)
  | path (e : PathError)
deriving DecidableEq, Repr

deriving instance DecidableEq for Except

/-- Everything observable about one run of `export`: the URLs requested, the
file write performed (if any), and the returned result. -/
structure ExportTrace : Type where
  requests : List String
  write : Option (PathM × List Nat)
  result : Except ExportError Unit
deriving DecidableEq, Repr

/-- `export` (src/main.rs lines 82-100), as a trace over an explicit file
system and HTTP transport `http : url → response`.  The stage order is the
source's: read the whole input, encode, build the URL, GET, resolve the
output path, write the body.  The encoder itself cannot fail in the model
(it writes to an in-memory buffer). -/
def exportRun (http : String → Except String (List Nat)) (fs : FS)
    (path : PathM) (url : String) (type_ : Type_) : ExportTrace :=
  match fsGet fs path with
  | none => ⟨[], none, .error .ioRead⟩
  | some content =>
    if utf8Valid content then
      let encoded := encode_plantuml_deflate content
      let requestUrl := url ++ "/" ++ typeToStr type_ ++ "/" ++ tokenStr encoded
      match http requestUrl with
      | .error e => ⟨[requestUrl], none, .error (.network e)⟩
      | .ok img =>
        match make_output_path path type_ with
        | .error pe => ⟨[requestUrl], none, .error (.path pe)⟩
        | .ok out_path => ⟨[requestUrl], some (out_path, img), .ok ()⟩
    else ⟨[], none, .error .notUtf8Content⟩

/-! ## The dispatcher (`main`, src/main.rs lines 102-115)

`main` spawns one task per path into a `JoinSet` and then loops
`while let Some(res) = set.join_next().await { res?? }`.  `join_next`
yields results in completion order; on the first joined `Err` the `?`
operator returns from `main`, the `JoinSet` is dropped, and (per its
documented semantics) all tasks still in flight are aborted.  The model
below therefore takes the tasks in completion order; a task aborted by the
early return has performed only a prefix of its writes (it may be cancelled
at any await point), given by the abort-progress list `aps`. -/

/-- What the dispatcher sees of one spawned task: its result and the file
writes it performs when run to completion. -/
structure TaskRun : Type where
  result : Except ExportError Unit
  writes : List (PathM × List Nat)
deriving DecidableEq, Repr

/-- The task corresponding to one `export` invocation. -/
def taskOf (t : ExportTrace) : TaskRun :=
  ⟨t.result, t.write.toList⟩

/-- Writes of a list of tasks all run to completion. -/
def writesOf : List TaskRun → List (PathM × List Nat)
  | [] => []
  | t :: rest => t.writes ++ writesOf rest

/-- Writes performed by tasks that are aborted when the dispatcher returns
early: each contributes only the prefix of its writes it reached before
cancellation (`aps` gives the per-task progress, default 0). -/
def abortedWrites : List TaskRun → List Nat → List (PathM × List Nat)
  | [], _ => []
  | _ :: rest, [] => abortedWrites rest []
  | t :: rest, k :: aps => t.writes.take k ++ abortedWrites rest aps

/-- The `while let ... { res?? }` drain loop of `main` (src/main.rs lines
111-113) over the tasks in completion order: successful results are joined
and their writes persist; at the first joined failure the loop returns that
error and the remaining in-flight tasks are aborted mid-flight. -/
def drainRun : List TaskRun → List Nat → Except ExportError Unit × List (PathM × List Nat)
  | [], _ => (.ok (), [])
  | t :: rest, aps =>
    match t.result with
    | .ok _ =>
      let (r, ws) := drainRun rest aps
      (r, t.writes ++ ws)
    | .error e => (.error e, t.writes ++ abortedWrites rest aps)

/-- First failure among the tasks, in completion order. -/
def errorOfFirst : List TaskRun → Except ExportError Unit
  | [] => .ok ()
  | t :: rest =>
    match t.result with
    | .error e => .error e
    | .ok _ => errorOfFirst rest

/-- Process exit status: `Err` from `main` exits non-zero. -/
def exitCode : Except ExportError Unit → Nat
  | .ok _ => 0
  | .error _ => 1

/-- A whole-run failure: client configuration (before any task runs) or the
first task failure. -/
inductive RunError : Type
  | clientConfig
  | task (e : ExportError)
deriving DecidableEq, Repr

/-- `main` (src/main.rs lines 102-115): build the client (fatally failing on
a bad proxy configuration before any file is touched), spawn one export per
path, drain.  `ordPaths` lists the input paths in the order their tasks
complete, `aps` the abort progress of tasks cancelled by an early return.
Returns the process result and the file writes that actually happened. -/
def mainRun (env : Option String) (http : String → Except String (List Nat))
    (fs : FS) (ordPaths : List PathM) (url : String) (type_ : Type_)
    (aps : List Nat) : Except RunError Unit × List (PathM × List Nat) :=
  match make_client env with
  | .error _ => (.error .clientConfig, [])
  | .ok _ =>
    let tasks := ordPaths.map (fun p => taskOf (exportRun http fs p url type_))
    let (r, ws) := drainRun tasks aps
    (r.mapError .task, ws)

/-! ## Helper lemmas -/

lemma rposDot_append (l1 l2 : List Nat) :
    rposDot (l1 ++ l2) = match rposDot l2 with
      | some i => some (l1.length + i)
      | none => rposDot l1 := by
  induction l1 with
  | nil => cases h : rposDot l2 <;> simp [h, rposDot]
  | cons b rest ih =>
    have hstep : rposDot ((b :: rest) ++ l2) =
        match rposDot (rest ++ l2) with
        | some i => some (i + 1)
        | none => if b = 46 then some 0 else none := rfl
    rw [hstep, ih]
    cases h2 : rposDot l2 with
    | none => rfl
    | some i => simp; omega

lemma parent_eq_dropLast (p : PathM) (h : p ≠ []) (h2 : p ≠ [.rootDir]) :
    parent p = some p.dropLast := by
  unfold parent
  split <;> simp_all

lemma parent_concat (pre : PathM) (n : List Nat) :
    parent (pre ++ [.normal n]) = some pre := by
  rw [parent_eq_dropLast]
  · simp
  · simp
  · intro h
    have := congrArg List.getLast? h
    simp [List.getLast?_concat] at this

lemma fileName_concat (pre : PathM) (n : List Nat) :
    fileName (pre ++ [.normal n]) = some n := by
  unfold fileName
  simp [List.getLast?_concat]

lemma typeBytes_facts (t : Type_) :
    rposDot (ascii (typeToStr t)) = none ∧ ascii (typeToStr t) ≠ [] := by
  cases t <;> decide

/-- Central computation of the path resolver: for an input whose stem `s` is
an ordinary name (nonempty, not `.` or `..`, containing no dot past its
first byte), the output is the parent extended with `s` plus a dot plus the
format string. -/
lemma make_output_path_spec (input : PathM) (type_ : Type_) (s : List Nat) (pre : PathM)
    (hstem : fileStem input = some s) (hutf : utf8Valid s = true)
    (hpar : parent input = some pre)
    (hnd : rposDot (s.drop 1) = none)
    (hne : s ≠ []) (h1 : s ≠ [46]) (h2 : s ≠ [46, 46]) :
    make_output_path input type_ =
      .ok (pre ++ [.normal (s ++ 46 :: ascii (typeToStr type_))]) := by
  have hpfs : pathFromStr s = [.normal s] := by
    unfold pathFromStr; rw [if_neg hne, if_neg h1, if_neg h2]
  have hwe : withExtension [.normal s] (ascii (typeToStr type_))
      = [.normal (s ++ 46 :: ascii (typeToStr type_))] := by
    unfold withExtension
    have hfn : fileName [.normal s] = some s := rfl
    rw [hfn]
    dsimp only
    unfold splitFileAtDot
    rw [if_neg h2, hnd]
    dsimp only
    rw [if_neg (typeBytes_facts type_).2]
    simp
  unfold make_output_path
  rw [hstem]
  dsimp only
  rw [hutf, hpar]
  dsimp only
  rw [hpfs, hwe]
  unfold push
  simp

lemma splitFileAtDot_stem_ext (s ext : List Nat)
    (hnd : rposDot (s.drop 1) = none) (hne : s ≠ []) (h1 : s ≠ [46])
    (hend : rposDot ext = none) :
    splitFileAtDot (s ++ 46 :: ext) = (s, some ext) := by
  obtain ⟨a, s', rfl⟩ : ∃ a s', s = a :: s' := by
    cases s with
    | nil => exact absurd rfl hne
    | cons a s' => exact ⟨a, s', rfl⟩
  unfold splitFileAtDot
  rw [if_neg ?hne2]
  case hne2 =>
    intro h
    have hlen := congrArg List.length h
    simp at hlen
    have hs' : s' = [] := by
      cases s' with
      | nil => rfl
      | cons x xs => simp at hlen; omega
    have hext : ext = [] := by
      cases ext with
      | nil => rfl
      | cons x xs => rw [hs'] at hlen; simp at hlen
    rw [hs', hext] at h
    simp at h
    exact h1 (by rw [hs', h])
  have hdrop : ((a :: s') ++ 46 :: ext).drop 1 = s' ++ 46 :: ext := rfl
  rw [hdrop, rposDot_append s' (46 :: ext)]
  have h46 : rposDot (46 :: ext) = some 0 := by
    have hstep : rposDot (46 :: ext) = match rposDot ext with
      | some i => some (i + 1)
      | none => if (46 : Nat) = 46 then some 0 else none := rfl
    rw [hstep, hend]
    simp
  rw [h46]
  dsimp only
  congr 1
  · have hl : s'.length + 0 + 1 = (a :: s').length := by simp
    rw [hl, List.take_left]
  · have hsplit : ((a :: s') ++ 46 :: ext) = ((a :: s') ++ [46]) ++ ext := by simp
    have hl2 : s'.length + 0 + 2 = ((a :: s') ++ [46]).length := by simp
    rw [hsplit, hl2, List.drop_left]

lemma fileStem_some_parent (input : PathM) (s : List Nat)
    (h : fileStem input = some s) : ∃ pre, parent input = some pre := by
  unfold fileStem fileName at h
  cases hl : input.getLast? with
  | none => rw [hl] at h; simp at h
  | some c =>
    rw [hl] at h
    cases c with
    | normal n =>
      refine ⟨input.dropLast, parent_eq_dropLast input ?h1 ?h2⟩
      case h1 =>
        intro hnil
        rw [hnil] at hl
        simp at hl
      case h2 =>
        intro heq
        rw [heq] at hl
        simp at hl
    | rootDir => simp at h
    | curDir => simp at h
    | parentDir => simp at h

lemma make_output_path_noStem (input : PathM) (type_ : Type_)
    (h : fileStem input = none) :
    make_output_path input type_ = .error .noFileStem := by
  unfold make_output_path
  rw [h]

lemma make_output_path_notUtf8 (input : PathM) (type_ : Type_) (s : List Nat)
    (hfs : fileStem input = some s) (hu : utf8Valid s = false) :
    make_output_path input type_ = .error .notUtf8 := by
  unfold make_output_path
  rw [hfs]
  dsimp only
  rw [hu]
  simp

lemma make_output_path_isOk (input : PathM) (type_ : Type_) (s : List Nat)
    (hfs : fileStem input = some s) (hu : utf8Valid s = true) :
    ∃ out, make_output_path input type_ = .ok out := by
  obtain ⟨pre, hpar⟩ := fileStem_some_parent input s hfs
  refine ⟨push pre (withExtension (pathFromStr s) (ascii (typeToStr type_))), ?_⟩
  unfold make_output_path
  rw [hfs]
  dsimp only
  rw [hu, hpar]
  simp

lemma fileStem_concat_ext (pre : PathM) (s ext : List Nat)
    (hnd : rposDot (s.drop 1) = none) (hne : s ≠ []) (h1 : s ≠ [46])
    (hend : rposDot ext = none) :
    fileStem (pre ++ [.normal (s ++ 46 :: ext)]) = some s ∧
    extension (pre ++ [.normal (s ++ 46 :: ext)]) = some ext := by
  unfold fileStem extension
  rw [fileName_concat]
  rw [Option.map_some', Option.some_bind]
  rw [splitFileAtDot_stem_ext s ext hnd hne h1 hend]
  exact ⟨rfl, rfl⟩

lemma dec6_enc6 : ∀ v, v < 64 → decode6bit (encode6bit v) = some v := by decide

lemma decodeB64_enc3 (a b c : Nat) (rest : List Nat)
    (ha : a < 256) (hb : b < 256) (hc : c < 256) :
    decodeB64 (encode3bytes a b c ++ rest) =
      (decodeB64 rest).map (fun t => a :: b :: c :: t) := by
  have h1 : a / 4 < 64 := by omega
  have h2 : a % 4 * 16 + b / 16 < 64 := by omega
  have h3 : b % 16 * 4 + c / 64 < 64 := by omega
  have h4 : c % 64 < 64 := by omega
  have hstep : decodeB64 (encode3bytes a b c ++ rest) =
      (decode6bit (encode6bit (a / 4))).bind (fun s1 =>
        (decode6bit (encode6bit (a % 4 * 16 + b / 16))).bind (fun s2 =>
          (decode6bit (encode6bit (b % 16 * 4 + c / 64))).bind (fun s3 =>
            (decode6bit (encode6bit (c % 64))).bind (fun s4 =>
              (decodeB64 rest).bind (fun tail =>
                some ((s1 * 4 + s2 / 16) :: (s2 % 16 * 16 + s3 / 4) ::
                  (s3 % 4 * 64 + s4) :: tail)))))) := rfl
  rw [hstep, dec6_enc6 _ h1, dec6_enc6 _ h2, dec6_enc6 _ h3, dec6_enc6 _ h4]
  simp only [Option.some_bind]
  have e1 : a / 4 * 4 + (a % 4 * 16 + b / 16) / 16 = a := by omega
  have e2 : (a % 4 * 16 + b / 16) % 16 * 16 + (b % 16 * 4 + c / 64) / 4 = b := by omega
  have e3 : (b % 16 * 4 + c / 64) % 4 * 64 + c % 64 = c := by omega
  rw [e1, e2, e3]
  cases decodeB64 rest <;> rfl

lemma padTo3_cons3 (a b c : Nat) (rest : List Nat) :
    padTo3 (a :: b :: c :: rest) = a :: b :: c :: padTo3 rest := by
  unfold padTo3
  simp [Nat.add_mod_right]
  omega

lemma decodeB64_encodeB64 : ∀ bs : List Nat, bytesOk bs →
    decodeB64 (encodeB64 bs) = some (padTo3 bs) := by
  intro bs
  induction bs using encodeB64.induct with
  | case1 => intro _; rfl
  | case2 a =>
    intro h
    have ha : a < 256 := h a (by simp)
    have hsh : encodeB64 [a] = encode3bytes a 0 0 ++ [] := by simp [encodeB64]
    rw [hsh, decodeB64_enc3 a 0 0 [] ha (by omega) (by omega)]
    rfl
  | case3 a b =>
    intro h
    have ha : a < 256 := h a (by simp)
    have hb : b < 256 := h b (by simp)
    have hsh : encodeB64 [a, b] = encode3bytes a b 0 ++ [] := by simp [encodeB64]
    rw [hsh, decodeB64_enc3 a b 0 [] ha hb (by omega)]
    rfl
  | case4 a b c rest ih =>
    intro h
    have ha : a < 256 := h a (by simp)
    have hb : b < 256 := h b (by simp)
    have hc : c < 256 := h c (by simp)
    have hr : bytesOk rest := fun x hx => h x (by simp [hx])
    have hsh : encodeB64 (a :: b :: c :: rest) = encode3bytes a b c ++ encodeB64 rest := by
      simp [encodeB64]
    rw [hsh, decodeB64_enc3 a b c _ ha hb hc, ih hr, padTo3_cons3]
    rfl

lemma deflateStored_bytesOk (bs : List Nat) (h : bytesOk bs) :
    bytesOk (deflateStored bs) := by
  induction bs using deflateStored.induct with
  | case1 bs hle =>
    rw [deflateStored, dif_pos hle]
    intro x hx
    simp at hx
    rcases hx with rfl | rfl | rfl | rfl | rfl | hmem
    · omega
    · omega
    · omega
    · omega
    · omega
    · exact h x hmem
  | case2 bs hgt ih =>
    rw [deflateStored, dif_neg hgt]
    intro x hx
    simp at hx
    rcases hx with rfl | rfl | rfl | hmem | hmem
    · omega
    · omega
    · omega
    · exact h x (List.take_subset _ _ hmem)
    · exact ih (fun y hy => h y (List.drop_subset _ _ hy)) x hmem

lemma le_length_deflateStored (bs : List Nat) :
    bs.length ≤ (deflateStored bs).length := by
  induction bs using deflateStored.induct with
  | case1 bs hle =>
    rw [deflateStored, dif_pos hle]
    simp
    omega
  | case2 bs hgt ih =>
    rw [deflateStored, dif_neg hgt]
    have hd : (bs.drop 65535).length = bs.length - 65535 := List.length_drop 65535 bs
    simp
    omega

lemma inflateGo_single (fuel : Nat) (bs extra : List Nat) (h : bs.length ≤ 65535) :
    inflateGo fuel (deflateStored bs ++ extra) = some bs := by
  rw [deflateStored, dif_pos h]
  have hshape : (1 :: bs.length % 256 :: bs.length / 256 ::
      (65535 - bs.length) % 256 :: (65535 - bs.length) / 256 :: bs) ++ extra
      = 1 :: bs.length % 256 :: bs.length / 256 ::
        (65535 - bs.length) % 256 :: (65535 - bs.length) / 256 :: (bs ++ extra) := by simp
  rw [hshape]
  unfold inflateGo
  have hlen : bs.length % 256 + 256 * (bs.length / 256) = bs.length := by omega
  rw [if_pos ?cond]
  case cond =>
    refine ⟨by omega, by omega, ?_⟩
    rw [hlen]
    simp
  rw [if_pos (by omega)]
  rw [hlen, List.take_left]

lemma inflateGo_deflateStored (fuel : Nat) : ∀ bs extra : List Nat,
    bs.length ≤ 65535 * fuel + 65535 →
    inflateGo fuel (deflateStored bs ++ extra) = some bs := by
  induction fuel with
  | zero =>
    intro bs extra h
    exact inflateGo_single 0 bs extra (by omega)
  | succ f ih =>
    intro bs extra h
    by_cases hle : bs.length ≤ 65535
    · exact inflateGo_single (f + 1) bs extra hle
    · rw [deflateStored, dif_neg hle]
      have hshape : (0 :: 255 :: 255 :: 0 :: 0 ::
          (bs.take 65535 ++ deflateStored (bs.drop 65535))) ++ extra
          = 0 :: 255 :: 255 :: 0 :: 0 ::
            (bs.take 65535 ++ (deflateStored (bs.drop 65535) ++ extra)) := by simp
      rw [hshape]
      unfold inflateGo
      have htklen : (bs.take 65535).length = 65535 := by
        simp
        omega
      rw [if_pos ?cond2]
      case cond2 =>
        refine ⟨by omega, by omega, ?_⟩
        simp [htklen]
      rw [if_neg (by omega)]
      have hlen255 : (255 : Nat) + 256 * 255 = 65535 := by norm_num
      rw [hlen255]
      have hdrop : (bs.take 65535 ++ (deflateStored (bs.drop 65535) ++ extra)).drop 65535
          = deflateStored (bs.drop 65535) ++ extra := List.drop_left' htklen
      have htake : (bs.take 65535 ++ (deflateStored (bs.drop 65535) ++ extra)).take 65535
          = bs.take 65535 := List.take_left' htklen
      dsimp only
      rw [hdrop, htake]
      have hdlen : (bs.drop 65535).length = bs.length - 65535 := List.length_drop 65535 bs
      rw [ih (bs.drop 65535) extra (by omega)]
      simp [List.take_append_drop]

lemma drainRun_fst (tasks : List TaskRun) (aps : List Nat) :
    (drainRun tasks aps).1 = errorOfFirst tasks := by
  induction tasks with
  | nil => rfl
  | cons t rest ih =>
    unfold drainRun errorOfFirst
    cases t.result with
    | ok u => simp [ih]
    | error e => simp

lemma errorOfFirst_ok_iff (tasks : List TaskRun) :
    errorOfFirst tasks = .ok () ↔ ∀ t ∈ tasks, t.result = .ok () := by
  induction tasks with
  | nil => simp [errorOfFirst]
  | cons t rest ih =>
    unfold errorOfFirst
    cases ht : t.result with
    | ok u => simp [ih, ht]
    | error e => simp [ht]

lemma drainRun_prefix_ok (pre : List TaskRun) (t : TaskRun) (rest : List TaskRun)
    (aps : List Nat) (e : ExportError)
    (hpre : ∀ x ∈ pre, x.result = .ok ()) (ht : t.result = .error e) :
    drainRun (pre ++ t :: rest) aps =
      (.error e, writesOf pre ++ (t.writes ++ abortedWrites rest aps)) := by
  induction pre with
  | nil =>
    rw [List.nil_append]
    unfold drainRun
    rw [ht]
    simp [writesOf]
  | cons p pre' ih =>
    have hp : p.result = .ok () := hpre p (by simp)
    have hrest : ∀ x ∈ pre', x.result = .ok () := fun x hx => hpre x (by simp [hx])
    have hshape : (p :: pre') ++ t :: rest = p :: (pre' ++ t :: rest) := rfl
    rw [hshape]
    unfold drainRun
    rw [hp, ih hrest]
    simp [writesOf]

lemma fsGet_fsSet (fs : FS) (p : PathM) (v : List Nat) :
    fsGet (fsSet fs p v) p = some v := by
  induction fs with
  | nil => simp [fsSet, fsGet]
  | cons e rest ih =>
    obtain ⟨q, w⟩ := e
    unfold fsSet
    by_cases h : q = p
    · rw [if_pos h]
      unfold fsGet
      rw [if_pos h]
    · rw [if_neg h]
      unfold fsGet
      rw [if_neg h]
      exact ih

lemma exportRun_success (http : String → Except String (List Nat)) (fs : FS)
    (path : PathM) (url : String) (type_ : Type_) (content img : List Nat) (out : PathM)
    (hread : fsGet fs path = some content) (hutf : utf8Valid content = true)
    (hhttp : http (url ++ "/" ++ typeToStr type_ ++ "/"
      ++ tokenStr (encode_plantuml_deflate content)) = .ok img)
    (hout : make_output_path path type_ = .ok out) :
    exportRun http fs path url type_ =
      ⟨[url ++ "/" ++ typeToStr type_ ++ "/" ++ tokenStr (encode_plantuml_deflate content)],
        some (out, img), .ok ()⟩ := by
  simp only [exportRun, hread, hutf, if_pos, hhttp, hout]

lemma mainRun_clientError (env : Option String) (http : String → Except String (List Nat))
    (fs : FS) (ordPaths : List PathM) (url : String) (type_ : Type_) (aps : List Nat)
    (h : make_client env = .error .proxyInvalid) :
    mainRun env http fs ordPaths url type_ aps = (.error .clientConfig, []) := by
  unfold mainRun
  rw [h]

lemma mainRun_clientOk (env : Option String) (http : String → Except String (List Nat))
    (fs : FS) (ordPaths : List PathM) (url : String) (type_ : Type_) (aps : List Nat)
    (c : Client) (h : make_client env = .ok c) :
    mainRun env http fs ordPaths url type_ aps =
      ((drainRun (ordPaths.map fun p => taskOf (exportRun http fs p url type_)) aps).1.mapError .task,
       (drainRun (ordPaths.map fun p => taskOf (exportRun http fs p url type_)) aps).2) := by
  unfold mainRun
  rw [h]

/-! ## Claims -/

/-- C1: If any single file's export fails while others succeed, the overall
run fails: the drain loop of `main` returns the first joined per-file
failure as the run's terminal error, and the process exit is zero exactly
when every file's export succeeded — there is no partial-success exit even
when other files wrote valid output. -/
theorem dispatcher_propagates_first_failure (tasks : List TaskRun) (aps : List Nat) :
    (drainRun tasks aps).1 = errorOfFirst tasks ∧
    (exitCode (drainRun tasks aps).1 = 0 ↔ ∀ t ∈ tasks, t.result = .ok ()) := by
  refine ⟨drainRun_fst tasks aps, ?_⟩
  rw [drainRun_fst tasks aps]
  have h := errorOfFirst_ok_iff tasks
  cases he : errorOfFirst tasks with
  | ok u =>
    cases u
    simp only [exitCode]
    simp only [true_iff]
    exact h.mp he
  | error e =>
    simp only [exitCode]
    constructor
    · intro h0; omega
    · intro hP
      have hco := h.mpr hP
      rw [he] at hco
      exact Except.noConfusion hco

/-- C2 counterexample: two files, the missing one completing (and failing)
first.  The export of the good file would succeed and write `good.svg` when
run to completion, but the drain loop returns at the first joined failure
and the sibling is aborted before its write, so the run performs no write at
all — refuting the claim that valid output is still produced for every
non-failing input. -/
theorem dispatcher_abandons_sibling_counterexample :
    (taskOf (exportRun (fun _ => .ok [7, 8]) [([.normal (ascii "good.puml")], ascii "@startuml")]
        [.normal (ascii "good.puml")] "http://srv" .Svg)).result = .ok () ∧
    (taskOf (exportRun (fun _ => .ok [7, 8]) [([.normal (ascii "good.puml")], ascii "@startuml")]
        [.normal (ascii "good.puml")] "http://srv" .Svg)).writes
      = [([.normal (ascii "good.svg")], [7, 8])] ∧
    drainRun
      [taskOf (exportRun (fun _ => .ok [7, 8]) [([.normal (ascii "good.puml")], ascii "@startuml")]
          [.normal (ascii "missing.puml")] "http://srv" .Svg),
       taskOf (exportRun (fun _ => .ok [7, 8]) [([.normal (ascii "good.puml")], ascii "@startuml")]
          [.normal (ascii "good.puml")] "http://srv" .Svg)] [0]
      = (.error .ioRead, []) :=
  ⟨by decide, by decide, by decide⟩

/-- C2 (amended): when one export fails, the dispatcher reports that first
joined failure; exports joined before it keep all their writes, but sibling
tasks still in flight when the failure is joined are aborted (the `JoinSet`
is dropped by the early return of `res??`) and may have performed only a
prefix of their writes, so their outputs are not guaranteed. -/
theorem dispatcher_keeps_joined_writes (pre : List TaskRun) (t : TaskRun)
    (rest : List TaskRun) (aps : List Nat) (e : ExportError)
    (hpre : ∀ x ∈ pre, x.result = .ok ()) (ht : t.result = .error e) :
    drainRun (pre ++ t :: rest) aps =
      (.error e, writesOf pre ++ (t.writes ++ abortedWrites rest aps)) :=
  drainRun_prefix_ok pre t rest aps e hpre ht

/-- C2 witness: one successful task joined before the failure keeps its
write; the task after the failure, aborted at progress 0, loses its own. -/
theorem dispatcher_keeps_joined_writes_witness :
    drainRun ([⟨.ok (), [([.normal [97]], [1])]⟩] ++
        (⟨.error .ioRead, []⟩ : TaskRun) :: [⟨.ok (), [([.normal [98]], [2])]⟩]) [0]
      = (.error .ioRead, [([.normal [97]], [1])]) :=
  (dispatcher_keeps_joined_writes [⟨.ok (), [([.normal [97]], [1])]⟩]
    ⟨.error .ioRead, []⟩ [⟨.ok (), [([.normal [98]], [2])]⟩] [0] .ioRead
    (by decide) rfl).trans (by decide)

/-- C3 counterexample: for a file name with more than one dot the resolver
does not keep the input's stem.  `resolve(/a/b/x.y.z, Png)` is
`/a/b/x.png` — the stem of the input is `x.y` but the stem of the output is
`x`, because the source takes the stem first and `with_extension` then
replaces the stem's own trailing `.y`. -/
theorem resolve_multidot_stem_counterexample :
    make_output_path [.rootDir, .normal (ascii "a"), .normal (ascii "b"),
        .normal (ascii "x.y.z")] .Png
      = .ok [.rootDir, .normal (ascii "a"), .normal (ascii "b"), .normal (ascii "x.png")] ∧
    fileStem [.rootDir, .normal (ascii "a"), .normal (ascii "b"), .normal (ascii "x.png")]
      ≠ fileStem [.rootDir, .normal (ascii "a"), .normal (ascii "b"), .normal (ascii "x.y.z")] :=
  ⟨by decide, by decide⟩

/-- C3 (amended): for an input whose extractable, text-representable stem is
an ordinary name containing no further dot (and not `.` or `..`), the
resolved output path is the input's parent extended with the stem, a dot,
and the format's mapped string: same parent, same stem, new extension. -/
theorem resolve_parent_stem_extension (input : PathM) (type_ : Type_)
    (s : List Nat) (pre : PathM)
    (hstem : fileStem input = some s) (hutf : utf8Valid s = true)
    (hpar : parent input = some pre)
    (hnd : rposDot (s.drop 1) = none)
    (hne : s ≠ []) (h1 : s ≠ [46]) (h2 : s ≠ [46, 46]) :
    make_output_path input type_ =
      .ok (pre ++ [.normal (s ++ 46 :: ascii (typeToStr type_))]) ∧
    parent (pre ++ [.normal (s ++ 46 :: ascii (typeToStr type_))]) = some pre ∧
    fileStem (pre ++ [.normal (s ++ 46 :: ascii (typeToStr type_))]) = some s ∧
    extension (pre ++ [.normal (s ++ 46 :: ascii (typeToStr type_))])
      = some (ascii (typeToStr type_)) := by
  have hse := fileStem_concat_ext pre s (ascii (typeToStr type_)) hnd hne h1
    (typeBytes_facts type_).1
  exact ⟨make_output_path_spec input type_ s pre hstem hutf hpar hnd hne h1 h2,
    parent_concat pre _, hse.1, hse.2⟩

/-- C3 witness: `resolve(/a/b/diagram.puml, Png) = /a/b/diagram.png`. -/
theorem resolve_parent_stem_extension_witness :
    make_output_path [.rootDir, .normal (ascii "a"), .normal (ascii "b"),
        .normal (ascii "diagram.puml")] .Png
      = .ok [.rootDir, .normal (ascii "a"), .normal (ascii "b"), .normal (ascii "diagram.png")] :=
  ((resolve_parent_stem_extension
    [.rootDir, .normal (ascii "a"), .normal (ascii "b"), .normal (ascii "diagram.puml")] .Png
    (ascii "diagram") [.rootDir, .normal (ascii "a"), .normal (ascii "b")]
    (by decide) (by decide) (by decide) (by decide) (by decide) (by decide) (by decide)).1).trans
    (by decide)

/-- C4 counterexample: an input whose name is only an extension is not
rejected: `.puml` has itself as its stem (a leading dot starts no
extension), so the resolver succeeds and yields `.puml.svg`. -/
theorem dot_puml_accepted_counterexample :
    make_output_path [.normal (ascii ".puml")] .Svg = .ok [.normal (ascii ".puml.svg")] := by
  decide

/-- C4 (amended): output-path resolution fails with a `PathError` exactly
for an input with no extractable file stem (empty path, bare root, a path
ending in `..`) or with a non-text-representable (non-UTF-8) stem, with the
matching error in each case; an input whose name is only an extension such
as `.puml` is not an error (its stem is the whole name).  Each failure is a
per-file result, aborting only that file's export. -/
theorem make_output_path_error_conditions (input : PathM) (type_ : Type_) :
    ((∃ e, make_output_path input type_ = .error e) ↔
      fileStem input = none ∨ ∃ s, fileStem input = some s ∧ utf8Valid s = false) ∧
    (fileStem input = none → make_output_path input type_ = .error .noFileStem) ∧
    (∀ s, fileStem input = some s → utf8Valid s = false →
      make_output_path input type_ = .error .notUtf8) := by
  refine ⟨?_, make_output_path_noStem input type_,
    fun s hs hu => make_output_path_notUtf8 input type_ s hs hu⟩
  constructor
  · rintro ⟨e, he⟩
    cases hfs : fileStem input with
    | none => exact .inl rfl
    | some s =>
      right
      refine ⟨s, rfl, ?_⟩
      cases hu : utf8Valid s with
      | false => rfl
      | true =>
        obtain ⟨out, hout⟩ := make_output_path_isOk input type_ s hfs hu
        rw [hout] at he
        exact Except.noConfusion he
  · rintro (hnone | ⟨s, hs, hu⟩)
    · exact ⟨.noFileStem, make_output_path_noStem input type_ hnone⟩
    · exact ⟨.notUtf8, make_output_path_notUtf8 input type_ s hs hu⟩

/-- C4 witness: the empty path has no stem and errors accordingly; a
single-byte non-UTF-8 file name errors with the conversion failure. -/
theorem make_output_path_error_conditions_witness :
    make_output_path ([] : PathM) .Svg = .error .noFileStem ∧
    make_output_path [.normal [255]] .Svg = .error .notUtf8 :=
  ⟨(make_output_path_error_conditions [] .Svg).2.1 (by decide),
   (make_output_path_error_conditions [.normal [255]] .Svg).2.2 [255] (by decide) (by decide)⟩

/-- C5: the format mapping is the fixed bijection Ascii↔"txt", Png↔"png",
Svg↔"svg" (used for both the URL segment and the file extension), parsing
is case-insensitive on the names `ascii`, `txt`, `svg`, `png`, parsing
round-trips the mapped strings, and an unknown name such as `xyz` fails. -/
theorem format_mapping_bijection_case_insensitive :
    (typeToStr .Ascii = "txt" ∧ typeToStr .Png = "png" ∧ typeToStr .Svg = "svg") ∧
    (typeToStr .Ascii ≠ typeToStr .Png ∧ typeToStr .Ascii ≠ typeToStr .Svg ∧
      typeToStr .Png ≠ typeToStr .Svg) ∧
    (typeFromStr "PNG" = .ok .Png ∧ typeFromStr "Png" = .ok .Png ∧
      typeFromStr "png" = .ok .Png ∧ typeFromStr "svg" = .ok .Svg ∧
      typeFromStr "SVG" = .ok .Svg ∧ typeFromStr "ASCII" = .ok .Ascii ∧
      typeFromStr "ascii" = .ok .Ascii ∧ typeFromStr "txt" = .ok .Ascii ∧
      typeFromStr "TXT" = .ok .Ascii) ∧
    (typeFromStr (typeToStr .Ascii) = .ok .Ascii ∧
      typeFromStr (typeToStr .Png) = .ok .Png ∧
      typeFromStr (typeToStr .Svg) = .ok .Svg) ∧
    typeFromStr "xyz" = .error "Unknown Type xyz" := by
  decide

/-- C6: the Encoder is reversible: for every byte sequence of the diagram
text, decoding its encoded output — inverse custom-alphabet decoding
followed by the matching decompression — reconstructs the text exactly
(and the encoding is therefore injective). -/
theorem encoder_roundtrip (text : List Nat) (h : bytesOk text) :
    decode_plantuml_deflate (encode_plantuml_deflate text) = some text := by
  unfold decode_plantuml_deflate encode_plantuml_deflate
  rw [decodeB64_encodeB64 _ (deflateStored_bytesOk text h)]
  dsimp only
  unfold padTo3
  have hle := le_length_deflateStored text
  apply inflateGo_deflateStored
  simp
  omega

/-- C6 witness: the round trip at byte lengths 0, 1, 2, 3 and a length that
is not a multiple of three. -/
theorem encoder_roundtrip_witness :
    decode_plantuml_deflate (encode_plantuml_deflate []) = some [] ∧
    decode_plantuml_deflate (encode_plantuml_deflate [64]) = some [64] ∧
    decode_plantuml_deflate (encode_plantuml_deflate [64, 65]) = some [64, 65] ∧
    decode_plantuml_deflate (encode_plantuml_deflate [64, 65, 66]) = some [64, 65, 66] ∧
    decode_plantuml_deflate (encode_plantuml_deflate [64, 65, 66, 67]) = some [64, 65, 66, 67] :=
  ⟨encoder_roundtrip [] (by decide), encoder_roundtrip [64] (by decide),
   encoder_roundtrip [64, 65] (by decide), encoder_roundtrip [64, 65, 66] (by decide),
   encoder_roundtrip [64, 65, 66, 67] (by decide)⟩

/-- C7: a successful export issues exactly one GET, to
`{base_url}/{format_segment}/{encoded_token}` with the format's mapped
string and the Encoder's output for the file's exact text, and writes the
response bytes verbatim to the resolved output path; the write creates the
file or replaces (truncates) existing contents. -/
theorem export_one_get_writes_body (http : String → Except String (List Nat)) (fs : FS)
    (path : PathM) (url : String) (type_ : Type_) (content img : List Nat) (out : PathM)
    (hread : fsGet fs path = some content) (hutf : utf8Valid content = true)
    (hhttp : http (url ++ "/" ++ typeToStr type_ ++ "/"
      ++ tokenStr (encode_plantuml_deflate content)) = .ok img)
    (hout : make_output_path path type_ = .ok out) :
    exportRun http fs path url type_ =
      ⟨[url ++ "/" ++ typeToStr type_ ++ "/" ++ tokenStr (encode_plantuml_deflate content)],
        some (out, img), .ok ()⟩ ∧
    fsGet (fsSet fs out img) out = some img :=
  ⟨exportRun_success http fs path url type_ content img out hread hutf hhttp hout,
   fsGet_fsSet fs out img⟩

/-- C7 witness: exporting `d.puml` with format `svg` against a transport
that answers `[1, 2, 3]` requests exactly the encoded URL and records the
write of `[1, 2, 3]` to `d.svg`. -/
theorem export_one_get_writes_body_witness :
    exportRun (fun _ => .ok [1, 2, 3]) [([.normal (ascii "d.puml")], ascii "@startuml")]
        [.normal (ascii "d.puml")] "http://example.test/plantuml" .Svg =
      ⟨["http://example.test/plantuml" ++ "/" ++ typeToStr .Svg ++ "/"
          ++ tokenStr (encode_plantuml_deflate (ascii "@startuml"))],
        some ([.normal (ascii "d.svg")], [1, 2, 3]), .ok ()⟩ ∧
    fsGet (fsSet [([.normal (ascii "d.puml")], ascii "@startuml")]
        [.normal (ascii "d.svg")] [1, 2, 3]) [.normal (ascii "d.svg")] = some [1, 2, 3] :=
  export_one_get_writes_body (fun _ => .ok [1, 2, 3])
    [([.normal (ascii "d.puml")], ascii "@startuml")] [.normal (ascii "d.puml")]
    "http://example.test/plantuml" .Svg (ascii "@startuml") [1, 2, 3]
    [.normal (ascii "d.svg")] (by decide) (by decide) rfl (by decide)

/-- C8: with the proxy variable unset the client is built without a proxy
(requests go direct); with any malformed proxy URL, client construction
fails and the whole run aborts with the configuration error before any
per-file processing or file I/O. -/
theorem proxy_config_checked_before_files :
    make_client none = .ok ⟨none⟩ ∧
    ∀ u, validProxyUrl u = false →
      make_client (some u) = .error .proxyInvalid ∧
      ∀ (http : String → Except String (List Nat)) (fs : FS) (ordPaths : List PathM)
        (url : String) (type_ : Type_) (aps : List Nat),
        mainRun (some u) http fs ordPaths url type_ aps = (.error .clientConfig, []) := by
  refine ⟨rfl, fun u hu => ?_⟩
  have hm : make_client (some u) = .error .proxyInvalid := by
    simp only [make_client, hu]
    simp
  exact ⟨hm, fun http fs ordPaths url type_ aps =>
    mainRun_clientError (some u) http fs ordPaths url type_ aps hm⟩

/-- C8 witness: `http://` (scheme separator with empty host) is malformed;
the run aborts with the configuration error and performs no write. -/
theorem proxy_config_checked_before_files_witness :
    make_client (some "http://") = .error .proxyInvalid ∧
    mainRun (some "http://") (fun _ => .error "") [] [[.normal [97]]] "u" .Svg []
      = (.error .clientConfig, []) :=
  ⟨(proxy_config_checked_before_files.2 "http://" (by decide)).1,
   (proxy_config_checked_before_files.2 "http://" (by decide)).2 _ _ _ _ _ _⟩

/-- C9: a set-but-empty `http_proxy` takes the proxy branch (it is not the
direct-client branch taken when the variable is unset), the empty value is
rejected as a malformed proxy URL, and the whole run fails before any file
is processed. -/
theorem empty_proxy_treated_as_proxy_url :
    make_client (some "") = .error .proxyInvalid ∧
    make_client (some "") ≠ make_client none ∧
    ∀ (http : String → Except String (List Nat)) (fs : FS) (ordPaths : List PathM)
      (url : String) (type_ : Type_) (aps : List Nat),
      mainRun (some "") http fs ordPaths url type_ aps = (.error .clientConfig, []) := by
  refine ⟨by decide, by decide, fun http fs ordPaths url type_ aps =>
    mainRun_clientError (some "") http fs ordPaths url type_ aps (by decide)⟩

/-- C10 counterexample: `a.b.svg` exported as Svg has an extension equal to
the format's mapped extension, yet resolves to `a.svg`, not to the input
itself — the stem `a.b` is stripped once more by `with_extension`. -/
theorem matching_extension_multidot_counterexample :
    extension [.normal (ascii "a.b.svg")] = some (ascii (typeToStr .Svg)) ∧
    make_output_path [.normal (ascii "a.b.svg")] .Svg = .ok [.normal (ascii "a.svg")] ∧
    [.normal (ascii "a.svg")] ≠ ([.normal (ascii "a.b.svg")] : PathM) :=
  ⟨by decide, by decide, by decide⟩

/-- C10 (amended): when the input's extension equals the format's mapped
extension and the stem contains no further dot, the resolved output path
equals the input path, and a successful export records the write of the
response bytes to the input path itself — the input having been read in
full before the write, which then replaces it. -/
theorem export_overwrites_input_in_place (pre : PathM) (s : List Nat) (type_ : Type_)
    (http : String → Except String (List Nat)) (fs : FS) (url : String)
    (content img : List Nat)
    (hnd : rposDot (s.drop 1) = none) (hne : s ≠ []) (h1 : s ≠ [46]) (h2 : s ≠ [46, 46])
    (hutf : utf8Valid s = true)
    (hread : fsGet fs (pre ++ [.normal (s ++ 46 :: ascii (typeToStr type_))]) = some content)
    (hcontent : utf8Valid content = true)
    (hhttp : http (url ++ "/" ++ typeToStr type_ ++ "/"
      ++ tokenStr (encode_plantuml_deflate content)) = .ok img) :
    make_output_path (pre ++ [.normal (s ++ 46 :: ascii (typeToStr type_))]) type_
      = .ok (pre ++ [.normal (s ++ 46 :: ascii (typeToStr type_))]) ∧
    (exportRun http fs (pre ++ [.normal (s ++ 46 :: ascii (typeToStr type_))]) url type_).write
      = some (pre ++ [.normal (s ++ 46 :: ascii (typeToStr type_))], img) := by
  have hstem := (fileStem_concat_ext pre s (ascii (typeToStr type_)) hnd hne h1
    (typeBytes_facts type_).1).1
  have hmop := make_output_path_spec (pre ++ [.normal (s ++ 46 :: ascii (typeToStr type_))])
    type_ s pre hstem hutf (parent_concat pre _) hnd hne h1 h2
  refine ⟨hmop, ?_⟩
  rw [exportRun_success http fs _ url type_ content img _ hread hcontent hhttp hmop]

/-- C10 witness: `diagram.svg` exported as Svg resolves to itself and a
successful export records the overwrite of `diagram.svg`. -/
theorem export_overwrites_input_in_place_witness :
    make_output_path ([] ++ [.normal (ascii "diagram" ++ 46 :: ascii (typeToStr .Svg))]) .Svg
      = .ok ([] ++ [.normal (ascii "diagram" ++ 46 :: ascii (typeToStr .Svg))]) ∧
    (exportRun (fun _ => .ok [5])
        [([] ++ [.normal (ascii "diagram" ++ 46 :: ascii (typeToStr .Svg))], ascii "@startuml")]
        ([] ++ [.normal (ascii "diagram" ++ 46 :: ascii (typeToStr .Svg))]) "u" .Svg).write
      = some ([] ++ [.normal (ascii "diagram" ++ 46 :: ascii (typeToStr .Svg))], [5]) :=
  export_overwrites_input_in_place [] (ascii "diagram") .Svg (fun _ => .ok [5])
    [([] ++ [.normal (ascii "diagram" ++ 46 :: ascii (typeToStr .Svg))], ascii "@startuml")]
    "u" (ascii "@startuml") [5]
    (by decide) (by decide) (by decide) (by decide) (by decide) (by decide) (by decide) rfl

end PumlReq
